import Mathlib

set_option maxRecDepth 100000

/-!
Verification of the FLEX-FORM / Gemba import pipeline.

This file gives a shallow embedding, in Lean 4, of the data-handling code of
the repository:

* `src/scripts/import-data.js`  (class `SecureDataImporter`)
* `src/scripts/simple-import.js` (function `importData`)
* `src/scripts/demo-import.js`   (class `DemoImportProcess`)
* `src/secure-key-manager.js`    (class `SecureKeyManager`)
* the user portal (`FlexFormUser`: `submitForm`, `exportToCSV`,
  `exportToExcel`, `encryptData`, `hashData`)

JavaScript objects are modelled as ordered association lists over a small
value type `JVal`; JavaScript strings are modelled as Lean `String`s (all
inputs considered here are plain ASCII/BMP text, where JS UTF-16 code-unit
semantics and Lean character semantics agree).  External primitives
(WebCrypto AES-GCM/PBKDF2, the host `Date` parser) are modelled as ideal
functionalities, documented at their definitions; everything else is a
direct translation of the JavaScript.
-/

/-- JavaScript values occurring in the records handled by this code base. -/
inductive JVal where
  | str (s : String)
  | num (n : Nat)
  | jbool (b : Bool)
  | null
  | undefined
deriving DecidableEq, Repr

/-- A JavaScript object: an insertion-ordered association list with unique
keys (all object literals in the embedded code use distinct keys, and
`jset` preserves uniqueness). -/
def Jobj : Type := List (String × JVal)

instance : DecidableEq Jobj := by
  unfold Jobj
  infer_instance

/-- Property read `o[k]`: `none` models JavaScript `undefined` for an
absent key. -/
def jget (o : Jobj) (k : String) : Option JVal :=
  (o.find? (fun kv => kv.1 = k)).map (·.2)

/-- Property write `o[k] = v`: overwrites in place if the key exists,
otherwise appends (JS insertion order). -/
def jset (o : Jobj) (k : String) (v : JVal) : Jobj :=
  match o with
  | [] => [(k, v)]
  | (k0, v0) :: t => if k0 = k then (k0, v) :: t else (k0, v0) :: jset t k v

/-- Property deletion `delete o[k]`. -/
def jdel (o : Jobj) (k : String) : Jobj :=
  o.filter (fun kv => kv.1 ≠ k)

/-- JS `Object.keys(o)`. -/
def jkeys (o : Jobj) : List String :=
  o.map (·.1)

/-- JavaScript truthiness of a value. -/
def jtruthy : JVal → Bool
  | .str s => s ≠ ""
  | .num n => n ≠ 0
  | .jbool b => b
  | .null => false
  | .undefined => false

/-- Truthiness of a property read (absent keys are falsy `undefined`). -/
def jtruthyOpt : Option JVal → Bool
  | some v => jtruthy v
  | none => false

/-- JavaScript `hay.includes(needle)` (substring test). -/
def jsIncludes (hay needle : String) : Bool :=
  decide (needle.data <:+: hay.data)

/-- JS whitespace as occurring in CSV cells (space, tab, CR, LF). -/
def isJsWs (c : Char) : Bool :=
  c = ' ' || c = '\t' || c = '\n' || c = '\r'

/-- JS `s.trim()`, at character level. -/
def jsTrim (s : String) : String :=
  ⟨((s.data.dropWhile isJsWs).reverse.dropWhile isJsWs).reverse⟩

/-- JS `s.substring(0, n)`, at character level. -/
def strTake (s : String) (n : Nat) : String :=
  ⟨s.data.take n⟩

/-- JS `s.substring(n)`, at character level. -/
def strDrop (s : String) (n : Nat) : String :=
  ⟨s.data.drop n⟩

/-- JS `s.toLowerCase()` on ASCII text, at character level. -/
def strToLower (s : String) : String :=
  ⟨s.data.map Char.toLower⟩

/-- JS `s.toUpperCase()` on ASCII text, at character level. -/
def strToUpper (s : String) : String :=
  ⟨s.data.map Char.toUpper⟩

/-- JSON string escaping as performed by `JSON.stringify` (quote and
backslash; the inputs in this code base contain no control characters). -/
def escapeJson (s : String) : String :=
  s.data.foldl
    (fun acc c =>
      if c = '"' then acc ++ "\\\""
      else if c = '\\' then acc ++ "\\\\"
      else acc.push c) ""

/-- Serialization of one value inside `JSON.stringify`. -/
def jvalJson : JVal → String
  | .str s => "\"" ++ escapeJson s ++ "\""
  | .num n => toString n
  | .jbool true => "true"
  | .jbool false => "false"
  | .null => "null"
  | .undefined => "undefined"

/-- JS `JSON.stringify(o)` on a flat object: keys in insertion order,
`undefined`-valued properties omitted, no whitespace. -/
def jsonStringify (o : Jobj) : String :=
  "\x7b" ++
    String.intercalate ","
      (((o.filter (fun kv => kv.2 ≠ JVal.undefined)).map
        (fun kv => "\"" ++ escapeJson kv.1 ++ "\":" ++ jvalJson kv.2))) ++
  "\x7d"

/-- JS default string comparison: lexicographic by code units. -/
def codeUnitLe : List Char → List Char → Bool
  | [], _ => true
  | _ :: _, [] => false
  | a :: s, b :: t =>
      if a.toNat < b.toNat then true
      else if b.toNat < a.toNat then false
      else codeUnitLe s t

def jsStrLe (a b : String) : Bool :=
  codeUnitLe a.data b.data

/-- Insertion step of `Array.prototype.sort()` on strings. -/
def insertSorted (x : String) : List String → List String
  | [] => [x]
  | y :: t => if jsStrLe x y then x :: y :: t else y :: insertSorted x t

/-- JS `Object.keys(o).sort()`: default JS sort compares strings
lexicographically by code units, which for the keys in this code base
coincides with Lean's `String` order. -/
def sortStrings : List String → List String
  | [] => []
  | x :: t => insertSorted x (sortStrings t)

/-- JS `JSON.stringify(o, Object.keys(o).sort())`: a replacer array keeps
exactly the listed keys, in array (= sorted) order;
`undefined`-valued properties are still omitted. -/
def jsonStringifySorted (o : Jobj) : String :=
  let ks := sortStrings (jkeys o)
  "\x7b" ++
    String.intercalate ","
      ((ks.filterMap (fun k =>
        match jget o k with
        | some v => if v = JVal.undefined then none
                    else some ("\"" ++ escapeJson k ++ "\":" ++ jvalJson v)
        | none => none))) ++
  "\x7d"

/-! ### Base64

`Buffer.from(s).toString('base64')` (Node) and `btoa(s)` (browser) agree on
the ASCII inputs handled here; both are the standard base64 encoding of the
byte sequence of `s`, modelled below with bytes as character code points
(exact for ASCII/Latin-1). -/

def base64Alphabet : List Char :=
  "ABCDEFGHIJKLMNOPQRSTUVWXYZabcdefghijklmnopqrstuvwxyz0123456789+/".data

def base64Char (n : Nat) : Char :=
  base64Alphabet.getD n 'A'

/-- Standard base64 of a byte list, with `=` padding. -/
def base64Bytes : List Nat → List Char
  | b1 :: b2 :: b3 :: rest =>
      let n := b1 * 65536 + b2 * 256 + b3
      base64Char (n / 262144) :: base64Char (n / 4096 % 64) ::
        base64Char (n / 64 % 64) :: base64Char (n % 64) :: base64Bytes rest
  | [b1, b2] =>
      let n := b1 * 65536 + b2 * 256
      [base64Char (n / 262144), base64Char (n / 4096 % 64),
        base64Char (n / 64 % 64), '=']
  | [b1] =>
      let n := b1 * 65536
      [base64Char (n / 262144), base64Char (n / 4096 % 64), '=', '=']
  | [] => []

/-- JS `btoa(s)` / `Buffer.from(s).toString('base64')` for ASCII `s`. -/
def base64 (s : String) : String :=
  ⟨base64Bytes (s.data.map Char.toNat)⟩

/-- Method `SecureDataImporter.simpleEncrypt`:
`Buffer.from(data).toString('base64') + '_encrypted'`. -/
def simpleEncrypt (data : String) : String :=
  base64 data ++ "_encrypted"

/-- Method `SecureDataImporter.simpleHash`:
`Buffer.from(data + 'salt').toString('base64').substring(0, 32)`. -/
def simpleHash (data : String) : String :=
  strTake (base64 (data ++ "salt")) 32

/-- Method `FlexFormUser.encryptData`: `btoa(data) + '_encrypted'`. -/
def encryptData (data : String) : String :=
  base64 data ++ "_encrypted"

/-- Method `FlexFormUser.hashData`: `btoa(data + 'salt').substring(0, 32)`. -/
def hashData (data : String) : String :=
  strTake (base64 (data ++ "salt")) 32

/-! ### Key Manager (`src/secure-key-manager.js`)

The WebCrypto primitives used by `SecureKeyManager` are modelled as ideal
functionalities:

* PBKDF2 key derivation (fixed salt `flex-form-salt-2025`, 100000
  iterations, SHA-256) is modelled as an injective map from passphrases to
  keys — the idealization of a collision-free KDF;
* AES-256-GCM is modelled as an authenticated encryption whose ciphertext
  determines (and whose decryption checks) the key and IV it was produced
  with — the idealization of AEAD authenticity;
* the byte-level packaging (`combined = iv ∥ ciphertext`, base64) is
  modelled as the pair `(iv, ciphertext)`, because `decryptKey` splits the
  base64-decoded blob at offset 12 and both steps compose to the identity.
-/

/-- An AES key as produced by the (idealized) PBKDF2 derivation in
`SecureKeyManager.initialize`. -/
structure AESKey where
  passphrase : String
deriving DecidableEq, Repr

/-- The `initialize` derivation pipeline `importKey ∘ deriveKey`
(PBKDF2, fixed salt, 100000 iterations, AES-GCM 256), idealized. -/
def deriveKey (masterPassword : String) : AESKey :=
  ⟨masterPassword⟩

/-- An idealized AES-GCM ciphertext: records the key and IV it was made
with and the plaintext it protects. -/
structure AEADCipher where
  key : AESKey
  iv : List Nat
  plaintext : String
deriving DecidableEq, Repr

/-- Idealized `crypto.subtle.encrypt({name:'AES-GCM', iv}, key, data)`. -/
def aesGcmEncrypt (key : AESKey) (iv : List Nat) (data : String) : AEADCipher :=
  ⟨key, iv, data⟩

/-- Idealized `crypto.subtle.decrypt`: succeeds iff key and IV match the
ones used at encryption (AEAD authenticity), else throws. -/
def aesGcmDecrypt (key : AESKey) (iv : List Nat) (c : AEADCipher) :
    Option String :=
  if c.key = key ∧ c.iv = iv then some c.plaintext else none

/-- The base64-encoded `iv ∥ ciphertext` blob returned by `encryptKey`
(the concatenation/slice-at-12 and base64 round trip are the identity, so
the blob is modelled as the pair). -/
structure KMBlob where
  iv : List Nat
  ct : AEADCipher
deriving DecidableEq, Repr

/-- Errors surfaced by the key manager: the uninitialized-manager throw
and the decryption-failure throw (the "wrong password" condition). -/
inductive KMError where
  | notInitialized
  | decryptionError
deriving DecidableEq, Repr

/-- The `SecureKeyManager` mutable state: `encryptionKey` is `null` until
`initialize` runs. -/
structure SecureKeyManager where
  encryptionKey : Option AESKey
deriving DecidableEq, Repr

/-- State after `new SecureKeyManager()` followed by `initialize(masterPassword)`. -/
def initializeKM (masterPassword : String) : SecureKeyManager :=
  ⟨some (deriveKey masterPassword)⟩

/-- Method `SecureKeyManager.encryptKey(plainKey)` with the fresh random IV made
explicit as a parameter. -/
def encryptKey (km : SecureKeyManager) (iv : List Nat) (plainKey : String) :
    Except KMError KMBlob :=
  match km.encryptionKey with
  | none => .error .notInitialized
  | some key => .ok ⟨iv, aesGcmEncrypt key iv plainKey⟩

/-- Method `SecureKeyManager.decryptKey(encryptedKey)`: decode the blob, split
off the 12-byte IV, decrypt; a WebCrypto authentication failure is caught
and re-thrown, surfacing as `KMError.decryptionError`. -/
def decryptKey (km : SecureKeyManager) (blob : KMBlob) :
    Except KMError String :=
  match km.encryptionKey with
  | none => .error .notInitialized
  | some key =>
      match aesGcmDecrypt key blob.iv blob.ct with
      | some plain => .ok plain
      | none => .error .decryptionError

/-! ### Date normalization (`SecureDataImporter.parseDate`) -/

/-- The fixed three-letter month table of `parseDate`. -/
def monthMap (m : String) : Option String :=
  if m = "JAN" then some "01" else if m = "FEB" then some "02"
  else if m = "MAR" then some "03" else if m = "APR" then some "04"
  else if m = "MAY" then some "05" else if m = "JUN" then some "06"
  else if m = "JUL" then some "07" else if m = "AUG" then some "08"
  else if m = "SEP" then some "09" else if m = "OCT" then some "10"
  else if m = "NOV" then some "11" else if m = "DEC" then some "12"
  else none

/-- The regex `/^\d{2}[A-Z]{3}\d{2}$/`. -/
def ddmmmyyPattern (s : String) : Bool :=
  match s.data with
  | [d1, d2, m1, m2, m3, y1, y2] =>
      d1.isDigit && d2.isDigit && m1.isUpper && m2.isUpper && m3.isUpper &&
        y1.isDigit && y2.isDigit
  | _ => false

/-- The rewrite `${year}-${monthMap[month]}-${day}` applied when the
pattern matches; a month missing from the table interpolates as the
string `undefined`, exactly as the JS template literal does. -/
def rewriteDDMMMYY (s : String) : String :=
  let day := strTake s 2
  let month := strTake (strDrop s 2) 3
  let year := "20" ++ strDrop s 5
  year ++ "-" ++ (monthMap month).getD "undefined" ++ "-" ++ day

def digitVal (c : Char) : Nat := c.toNat - 48

/-- Leap-year rule of the Gregorian calendar (as validated by the host
date parser for ISO strings). -/
def isLeapYear (y : Nat) : Bool :=
  (y % 4 = 0 && y % 100 ≠ 0) || y % 400 = 0

def daysInMonth (y m : Nat) : Nat :=
  if m = 2 then (if isLeapYear y then 29 else 28)
  else if m = 4 ∨ m = 6 ∨ m = 9 ∨ m = 11 then 30
  else 31

/-- Validity of a `YYYY-MM-DD` string as accepted by the ECMAScript Date
Time String Format (month 1–12, day within the month). -/
def isValidIsoDate (s : String) : Bool :=
  match s.data with
  | [y1, y2, y3, y4, h1, m1, m2, h2, d1, d2] =>
      y1.isDigit && y2.isDigit && y3.isDigit && y4.isDigit &&
      h1 = '-' && h2 = '-' && m1.isDigit && m2.isDigit &&
      d1.isDigit && d2.isDigit &&
      (let y := digitVal y1 * 1000 + digitVal y2 * 100 +
                digitVal y3 * 10 + digitVal y4
       let m := digitVal m1 * 10 + digitVal m2
       let d := digitVal d1 * 10 + digitVal d2
       1 ≤ m && m ≤ 12 && 1 ≤ d && d ≤ daysInMonth y m)
  | _ => false

/-- Model of `new Date(cleanDate)` + `isNaN` check +
`toISOString().split('T')[0]`: a valid ISO `YYYY-MM-DD` string parses at
UTC midnight and serializes back to itself; the other strings reaching
this point in the pipeline (legacy free text such as `not-a-date`, and
failed rewrites such as `2025-undefined-01`) are rejected by the host
parser.  (The host parser's extra lenient formats — RFC 2822 etc. — are
outside the inputs this importer handles and are not modelled.) -/
def jsDateParse (s : String) : Option String :=
  if isValidIsoDate s then some s else none

/-- Method `SecureDataImporter.parseDate(dateString)`, with the importer's
`warnings` counter threaded explicitly (the method mutates
`this.importStats.warnings`). -/
def parseDate (dateString : String) (warnings : Nat) :
    Option String × Nat :=
  if jsTrim dateString = "" then (none, warnings)
  else
    let cleanDate := jsTrim dateString
    let cleanDate :=
      if ddmmmyyPattern cleanDate then rewriteDDMMMYY cleanDate else cleanDate
    match jsDateParse cleanDate with
    | some iso => (some iso, warnings)
    | none => (none, warnings + 1)

/-- The `parseDate` call applied to a CSV cell that may be absent
(`row[col]` is `undefined`, which the leading `!dateString` test turns
into `null` without a warning). -/
def parseDateOpt : Option String → Nat → Option String × Nat
  | none, w => (none, w)
  | some s, w => parseDate s w

/-! ### CSV row mapping (`SecureDataImporter.readCSVFile`) -/

/-- One row of `Gemba Requests.csv` as produced by `csv-parser`: each
legacy column is a string, or absent (`undefined`) when the column is
missing from the row. -/
structure CsvRow where
  id : Option String
  shortDescription : Option String
  contact : Option String
  location : Option String
  whenOccurred : Option String
  whenDetected : Option String
  expectedResults : Option String
  processConf : Option String
  outcome : Option String
deriving DecidableEq, Repr

/-- An optional CSV cell as a JS value (`undefined` when absent). -/
def jvalOfCell : Option String → JVal
  | some s => .str s
  | none => .undefined

/-- A parsed date as a JS value (`null` on failure, per `parseDate`). -/
def jvalOfDate : Option String → JVal
  | some s => .str s
  | none => .null

/-- The record literal built per row in `readCSVFile` (the two
`parseDate` calls run in field order, threading the warnings counter). -/
def mapCSVRow (row : CsvRow) (warnings : Nat) : Jobj × Nat :=
  let eo := parseDateOpt row.whenOccurred warnings
  let ed := parseDateOpt row.whenDetected eo.2
  ([("original_id", jvalOfCell row.id),
    ("short_description", jvalOfCell row.shortDescription),
    ("contact_organizer", jvalOfCell row.contact),
    ("location", jvalOfCell row.location),
    ("event_occurred", jvalOfDate eo.1),
    ("event_detected", jvalOfDate ed.1),
    ("expected_results", jvalOfCell row.expectedResults),
    ("process_confidence", jvalOfCell row.processConf),
    ("gemba_outcome", jvalOfCell row.outcome)], ed.2)

/-! ### Classification and security metadata (`SecureDataImporter`) -/

/-- Method `SecureDataImporter.classifyRecord(record)`: keyword scan of
`JSON.stringify(record).toLowerCase()`.  Note the `@`/`email` test runs
first in the source. -/
def classifyRecord (record : Jobj) : String :=
  let content := strToLower (jsonStringify record)
  if jsIncludes content "@" || jsIncludes content "email" then "internal"
  else if jsIncludes content "confidential" || jsIncludes content "sensitive" then
    "confidential"
  else "internal"

/-- Method `SecureDataImporter.extractDepartment(location)`: falsy locations map
to `general`; otherwise case-insensitive first-match over the ordered
keyword list.  (A truthy non-string would throw at `.toUpperCase()` in
JS; this pipeline only ever passes strings or `undefined`.) -/
def extractDepartment (location : JVal) : String :=
  if jtruthy location then
    match location with
    | .str l =>
        let locationUpper := strToUpper l
        if jsIncludes locationUpper "NYA" then "NYA"
        else if jsIncludes locationUpper "FORBES" then "FORBES"
        else if jsIncludes locationUpper "QC" then "QC"
        else if jsIncludes locationUpper "MICRO" then "MICROBIOLOGY"
        else "general"
    | _ => "general"
  else "general"

/-- Method `DemoImportProcess.identifyDepartment(location)`
(`src/scripts/demo-import.js`), translated separately from its own
source. -/
def identifyDepartment (location : JVal) : String :=
  if jtruthy location then
    match location with
    | .str l =>
        let locationUpper := strToUpper l
        if jsIncludes locationUpper "NYA" then "NYA"
        else if jsIncludes locationUpper "FORBES" then "FORBES"
        else if jsIncludes locationUpper "QC" then "QC"
        else if jsIncludes locationUpper "MICRO" then "MICROBIOLOGY"
        else "general"
    | _ => "general"
  else "general"

/-- Method `SecureDataImporter.generateDataHash(record)`. -/
def generateDataHash (record : Jobj) : String :=
  simpleHash (jsonStringifySorted record)

/-- Method `SecureDataImporter.encryptSensitiveData(record)`: when the contact
value is truthy and contains `@`, add the `_encrypted`/`_hash` fields and
delete the plaintext.  The boolean reports whether
`importStats.encryptedFields` was incremented. -/
def encryptSensitiveData (record : Jobj) : Jobj × Bool :=
  match jget record "contact_organizer" with
  | some (.str v) =>
      if v ≠ "" && jsIncludes v "@" then
        (jdel
          (jset
            (jset record "contact_organizer_encrypted" (.str (simpleEncrypt v)))
            "contact_organizer_hash" (.str (simpleHash v)))
          "contact_organizer", true)
      else (record, false)
  | _ => (record, false)

/-- The `audit_log` value: `JSON.stringify([{action:'IMPORT', ...}])`. -/
def auditLogJson (now batchId : String) : String :=
  "[" ++
    jsonStringify
      [("action", .str "IMPORT"), ("timestamp", .str now),
       ("user", .str "data-import@system"),
       ("source", .str "Gemba Requests.csv"), ("batch", .str batchId)] ++
  "]"

/-- The `secureRecord` spread built in `processRecords` for one row:
`{...encryptedRecord, department, security_classification, data_hash,
import_batch, audit_log}` — the metadata is computed from the raw
record. -/
def secureRecordOf (batchId now : String) (record : Jobj) : Jobj :=
  let encryptedRecord := (encryptSensitiveData record).1
  let s := jset encryptedRecord "department"
    (.str (extractDepartment ((jget record "location").getD .undefined)))
  let s := jset s "security_classification" (.str (classifyRecord record))
  let s := jset s "data_hash" (.str (generateDataHash record))
  let s := jset s "import_batch" (.str batchId)
  jset s "audit_log" (.str (auditLogJson now batchId))

/-! ### Batch loops (`processRecords`, `uploadToDatabase`, `importData`) -/

/-- The importer's `importStats` object, in source field order. -/
structure ImportStats where
  totalRecords : Nat
  processedRecords : Nat
  encryptedFields : Nat
  errors : Nat
  warnings : Nat
deriving DecidableEq, Repr

/-- Initial statistics of `new SecureDataImporter()`. -/
def initialStats : ImportStats := ⟨0, 0, 0, 0, 0⟩

/-- Batching `records.slice(i, i + n)` for `i = 0, n, 2n, …` — the batching both
loops perform. -/
def chunks (n : Nat) : List α → List (List α)
  | [] => []
  | x :: xs => (x :: xs.take (n - 1)) :: chunks n (xs.drop (n - 1))
termination_by l => l.length
decreasing_by
  simp only [List.length_drop, List.length_cons]
  omega

/-- One iteration of the per-record `try`/`catch` body of
`processRecords`, abstracted: `.ok (rec, e)` is a completed body
returning the secure record and the `encryptedFields` increment;
`.error` is a thrown exception (the abstraction point for JS runtime
failures the shallow embedding cannot enumerate). -/
def ImportStep : Type := Jobj → Except String (Jobj × Nat)

/-- The inner `for (const record of batch)` loop with its `try`/`catch`:
on success push the record and bump `processedRecords`; on an exception
bump `errors` and continue with the next record. -/
def processBatchWith (step : ImportStep) (batch : List Jobj)
    (acc : List Jobj × ImportStats) : List Jobj × ImportStats :=
  batch.foldl
    (fun acc r =>
      match step r with
      | .ok (rec, e) =>
          (acc.1 ++ [rec],
            { acc.2 with
              encryptedFields := acc.2.encryptedFields + e,
              processedRecords := acc.2.processedRecords + 1 })
      | .error _ =>
          (acc.1, { acc.2 with errors := acc.2.errors + 1 }))
    acc

/-- Method `SecureDataImporter.processRecords(records)` with the per-record body
abstracted as `step`: the outer loop walks batches of `batchSize = 100`
and accumulates into `processedRecords`. -/
def processRecordsWith (step : ImportStep) (records : List Jobj)
    (stats : ImportStats) : List Jobj × ImportStats :=
  (chunks 100 records).foldl
    (fun acc batch => processBatchWith step batch acc) ([], stats)

/-- The actual per-record body of `processRecords` (which, modulo JS
runtime exceptions, always completes). -/
def realStep (batchId now : String) : ImportStep := fun record =>
  .ok (secureRecordOf batchId now record,
       if (encryptSensitiveData record).2 then 1 else 0)

/-- Method `SecureDataImporter.processRecords(records)` with the real body. -/
def processRecords (batchId now : String) (records : List Jobj)
    (stats : ImportStats) : List Jobj × ImportStats :=
  processRecordsWith (realStep batchId now) records stats

/-- The body of the per-batch upload loop: on success count the batch as
uploaded, on a caught exception add `batch.length` to `errors`. -/
def upF (send : List Jobj → Except String Unit)
    (acc : Nat × ImportStats) (batch : List Jobj) : Nat × ImportStats :=
  match send batch with
  | .ok _ => (acc.1 + batch.length, acc.2)
  | .error _ =>
      (acc.1, { acc.2 with errors := acc.2.errors + batch.length })

/-- Method `SecureDataImporter.uploadToDatabase(processedRecords)` with the
per-batch upload abstracted as `send` (in the source the Supabase `fetch`
is commented out and the `try` body only sleeps, so the real `send`
always succeeds): batches of 50; a failed batch adds `batch.length` to
`errors` and the loop continues. -/
def uploadToDatabaseWith (send : List Jobj → Except String Unit)
    (processedRecords : List Jobj) (stats : ImportStats) :
    Nat × ImportStats :=
  (chunks 50 processedRecords).foldl (upF send) (0, stats)

/-- The simulated upload of the source (`fetch` commented out; nothing in
the `try` body can throw). -/
def uploadSendSim : List Jobj → Except String Unit := fun _ => .ok ()

/-- Method `SecureDataImporter.uploadToDatabase` as shipped. -/
def uploadToDatabase (processedRecords : List Jobj) (stats : ImportStats) :
    Nat × ImportStats :=
  uploadToDatabaseWith uploadSendSim processedRecords stats

/-- The success-path return object of `SecureDataImporter.importData`
(lines 501–506): the run after the CSV has been parsed into `records`,
with `importStats.totalRecords = records.length` set first. -/
def importData (records : List Jobj) (batchId now : String) : Jobj :=
  let stats0 : ImportStats := { initialStats with totalRecords := records.length }
  let pr := processRecords batchId now records stats0
  let up := uploadToDatabase pr.1 pr.2
  [("success", .jbool true),
   ("totalRecords", .num up.2.totalRecords),
   ("uploadedRecords", .num up.1),
   ("errors", .num up.2.errors)]

/-! ### Simplified importer (`src/scripts/simple-import.js`) -/

/-- The record pushed per CSV row by `importData` in `simple-import.js`:
a direct copy of the row, `contact_organizer` included verbatim. -/
def simpleImportMapRow (row : CsvRow) : Jobj :=
  [("request_id", jvalOfCell row.id),
   ("short_description", jvalOfCell row.shortDescription),
   ("contact_organizer", jvalOfCell row.contact),
   ("location", jvalOfCell row.location),
   ("event_occurred", jvalOfCell row.whenOccurred),
   ("event_detected", jvalOfCell row.whenDetected),
   ("expected_results", jvalOfCell row.expectedResults),
   ("process_effectiveness", jvalOfCell row.processConf),
   ("outcome", jvalOfCell row.outcome)]

/-- The full record list `simple-import.js` hands to
`supabase.from('gemba_requests').insert(batch)` in slices of 50 — these
records are transmitted as-is, with no encryption step. -/
def simpleImportRecords (rows : List CsvRow) : List Jobj :=
  rows.map simpleImportMapRow

/-! ### User portal submit (`FlexFormUser.submitForm`) -/

/-- The `dbData` object `submitForm` inserts into `gemba_requests`:
the form data spread plus metadata, then the conditional encryption of
`contact_organizer || requester_email` (encrypt and delete both only when
the first truthy of the two contains `@`). -/
def submitFormPrepare (formData : Jobj) (userEmail userDept templateName
    createdAt : String) : Jobj :=
  let dbData := jset formData "created_by" (.str userEmail)
  let dbData := jset dbData "department" (.str userDept)
  let dbData := jset dbData "security_classification" (.str "internal")
  let dbData := jset dbData "source_file"
    (.str (templateName ++ " - User Submission"))
  let dbData := jset dbData "created_at" (.str createdAt)
  let co := jget dbData "contact_organizer"
  let re := jget dbData "requester_email"
  if jtruthyOpt co || jtruthyOpt re then
    let emailField : JVal :=
      if jtruthyOpt co then co.getD .undefined else re.getD .undefined
    match emailField with
    | .str s =>
        if jsIncludes s "@" then
          jdel
            (jdel
              (jset
                (jset dbData "contact_organizer_encrypted"
                  (.str (encryptData s)))
                "contact_organizer_hash" (.str (hashData s)))
              "contact_organizer")
            "requester_email"
        else dbData
    | _ => dbData
  else dbData

/-! ### Exports (`FlexFormUser.exportToCSV`, `FlexFormUser.exportToExcel`) -/

/-- The fixed exclusion list of `exportToCSV`. -/
def excludeFields : List String :=
  ["contact_organizer_encrypted", "contact_organizer_hash", "data_hash",
   "audit_log"]

/-- JS `value.replace(/"/g, '""')`: double every internal quote. -/
def doubleQuotesJS (s : String) : String :=
  ⟨s.data.foldr
    (fun c acc => if c = '"' then '"' :: '"' :: acc else c :: acc) []⟩

/-- One CSV cell: `record[col] || ''`, then for strings double the
quotes and wrap when the value contains a comma, newline or quote
(non-strings are stringified by `row.join(',')`). -/
def csvCellVal (v : Option JVal) : String :=
  let v0 : JVal :=
    match v with
    | some w => if jtruthy w then w else .str ""
    | none => .str ""
  match v0 with
  | .str s =>
      let s := doubleQuotesJS s
      if jsIncludes s "," || jsIncludes s "\n" || jsIncludes s "\"" then
        "\"" ++ s ++ "\""
      else s
  | .num n => toString n
  | .jbool b => if b then "true" else "false"
  | .null => "null"
  | .undefined => "undefined"

/-- The column list of `exportToCSV`:
`Object.keys(data[0]).filter(key => !excludeFields.includes(key))`. -/
def csvColumns (d0 : Jobj) : List String :=
  (jkeys d0).filter (fun k => !(excludeFields.contains k))

/-- The CSV text built by `exportToCSV` (`none` models the exception
`Object.keys(data[0])` throws on an empty record list). -/
def exportToCSV (data : List Jobj) : Option String :=
  match data with
  | [] => none
  | d0 :: _ =>
      let columns := csvColumns d0
      let header := String.intercalate "," columns ++ "\n"
      some (data.foldl
        (fun csv record =>
          csv ++
            String.intercalate ","
              (columns.map (fun col => csvCellVal (jget record col))) ++
            "\n")
        header)

/-- JS `key.replace('_', ' ')`: only the first underscore is replaced. -/
def replaceFirstUnderscoreAux : List Char → List Char
  | [] => []
  | c :: t => if c = '_' then ' ' :: t else c :: replaceFirstUnderscoreAux t

def replaceFirstUnderscore (k : String) : String :=
  ⟨replaceFirstUnderscoreAux k.data⟩

/-- The per-record cleaning of `exportToExcel`: keep only keys that
contain neither `encrypted` nor `hash` and are not `audit_log`, renaming
`key.replace('_', ' ')`. -/
def excelCleanRecord (record : Jobj) : Jobj :=
  (jkeys record).foldl
    (fun clean key =>
      if !(jsIncludes key "encrypted") && !(jsIncludes key "hash") &&
          key ≠ "audit_log" then
        jset clean (replaceFirstUnderscore key)
          ((jget record key).getD .undefined)
      else clean)
    []

/-- The `cleanData` array `exportToExcel` passes to
`XLSX.utils.json_to_sheet`. -/
def excelCleanData (data : List Jobj) : List Jobj :=
  data.map excelCleanRecord

/-! ### Observations on an abstract step, used to state the loop
invariants of `processRecords` / `uploadToDatabase` -/

/-- The record an abstract step yields on success. -/
def stepOkRec (step : ImportStep) (r : Jobj) : Option Jobj :=
  match step r with
  | .ok (rec, _) => some rec
  | .error _ => none

/-- Whether an abstract step completes without throwing. -/
def stepIsOk (step : ImportStep) (r : Jobj) : Bool :=
  match step r with
  | .ok _ => true
  | .error _ => false

/-- The `encryptedFields` increment an abstract step reports. -/
def stepEnc (step : ImportStep) (r : Jobj) : Nat :=
  match step r with
  | .ok (_, e) => e
  | .error _ => 0

/-- Whether an abstract upload of one batch succeeds. -/
def sendOk (send : List Jobj → Except String Unit) (batch : List Jobj) :
    Bool :=
  match send batch with
  | .ok _ => true
  | .error _ => false

/-- The body of the per-record loop of `processRecords`, as a fold
function (identical to the lambda inside `processBatchWith`). -/
def procF (step : ImportStep) (acc : List Jobj × ImportStats) (r : Jobj) :
    List Jobj × ImportStats :=
  match step r with
  | .ok (rec, e) =>
      (acc.1 ++ [rec],
        { acc.2 with
          encryptedFields := acc.2.encryptedFields + e,
          processedRecords := acc.2.processedRecords + 1 })
  | .error _ =>
      (acc.1, { acc.2 with errors := acc.2.errors + 1 })

/-! ## Helper lemmas -/

theorem jget_jset_self (o : Jobj) (k : String) (v : JVal) :
    jget (jset o k v) k = some v := by
  induction o with
  | nil => simp [jget, jset]
  | cons kv t ih =>
      obtain ⟨k0, v0⟩ := kv
      by_cases h : k0 = k
      · subst h
        simp [jget, jset]
      · simpa [jget, jset, h] using ih

theorem jget_jset_ne (o : Jobj) (k k1 : String) (v : JVal) (h : k1 ≠ k) :
    jget (jset o k v) k1 = jget o k1 := by
  induction o with
  | nil => simp [jget, jset, h, Ne.symm h]
  | cons kv t ih =>
      obtain ⟨k0, v0⟩ := kv
      by_cases h0 : k0 = k
      · subst h0
        simp [jget, jset, Ne.symm h]
      · by_cases h1 : k0 = k1
        · subst h1
          simp [jget, jset, h0]
        · simpa [jget, jset, h0, h1] using ih

theorem jget_jdel_self (o : Jobj) (k : String) :
    jget (jdel o k) k = none := by
  induction o with
  | nil => simp [jget, jdel]
  | cons kv t ih =>
      obtain ⟨k0, v0⟩ := kv
      by_cases h : k0 = k
      · subst h
        simp [jget, jdel]
      · simp [jget, jdel, h]

theorem jget_jdel_ne (o : Jobj) (k k1 : String) (h : k1 ≠ k) :
    jget (jdel o k) k1 = jget o k1 := by
  induction o with
  | nil => simp [jget, jdel]
  | cons kv t ih =>
      obtain ⟨k0, v0⟩ := kv
      by_cases h0 : k0 = k
      · subst h0
        simpa [jget, jdel, Ne.symm h] using ih
      · by_cases h1 : k0 = k1
        · subst h1
          simp [jget, jdel, h0]
        · simpa [jget, jdel, h0, h1] using ih

theorem singleton_infix_iff {α : Type} {a : α} {l : List α} :
    [a] <:+: l ↔ a ∈ l := by
  constructor
  · rintro ⟨s, t, rfl⟩
    simp
  · intro h
    obtain ⟨s, t, rfl⟩ := List.append_of_mem h
    exact ⟨s, t, by simp⟩

/-- The `jsIncludes` test with a one-character needle is character membership. -/
theorem jsIncludes_singleton (hay : String) (c : Char) :
    jsIncludes hay ⟨[c]⟩ = (c ∈ hay.data : Bool) := by
  simp [jsIncludes, singleton_infix_iff]

/-- Doubling quotes neither adds nor removes character occurrences
(the only character it inserts is a quote that was already there). -/
theorem mem_doubleQuotesJS (s : String) (c : Char) :
    c ∈ (doubleQuotesJS s).data ↔ c ∈ s.data := by
  show c ∈ s.data.foldr _ [] ↔ _
  induction s.data with
  | nil => simp
  | cons d t ih =>
      rw [List.foldr_cons]
      by_cases hd : d = '"'
      · subst hd
        rw [if_pos rfl]
        simp only [List.mem_cons, ih]
        tauto
      · rw [if_neg hd]
        simp only [List.mem_cons, ih]

/-- A string without quotes is unchanged by quote doubling. -/
theorem doubleQuotesJS_no_quote (s : String) (h : '"' ∉ s.data) :
    doubleQuotesJS s = s := by
  show String.mk (s.data.foldr _ []) = s
  have hfold : ∀ l : List Char, '"' ∉ l →
      l.foldr
        (fun c acc => if c = '"' then '"' :: '"' :: acc else c :: acc) [] =
        l := by
    intro l hl
    induction l with
    | nil => rfl
    | cons d t ih =>
        simp only [List.mem_cons, not_or] at hl
        rw [List.foldr_cons, if_neg (fun hq => hl.1 hq.symm), ih hl.2]
  rw [hfold s.data h]

/-- Batching then flattening is the identity. -/
theorem chunks_flatten {α : Type} (n : Nat) :
    (l : List α) → (chunks n l).flatten = l
  | [] => by simp [chunks]
  | x :: xs => by
      rw [chunks]
      simp only [List.flatten_cons]
      rw [chunks_flatten n (xs.drop (n - 1))]
      simp [List.take_append_drop]
termination_by l => l.length
decreasing_by
  simp only [List.length_drop, List.length_cons]
  omega

/-- The batched outer loop is the flat fold over all records. -/
theorem processRecordsWith_eq_foldl (step : ImportStep)
    (records : List Jobj) (stats : ImportStats) :
    processRecordsWith step records stats =
      records.foldl (procF step) ([], stats) := by
  have hb : ∀ (batch : List Jobj) (acc : List Jobj × ImportStats),
      processBatchWith step batch acc = batch.foldl (procF step) acc := by
    intro batch acc
    rfl
  unfold processRecordsWith
  calc (chunks 100 records).foldl
        (fun acc batch => processBatchWith step batch acc) ([], stats)
      = (chunks 100 records).foldl
        (fun acc batch => batch.foldl (procF step) acc) ([], stats) := by
        simp only [hb]
    _ = (chunks 100 records).flatten.foldl (procF step) ([], stats) := by
        rw [List.foldl_flatten]
    _ = records.foldl (procF step) ([], stats) := by
        rw [chunks_flatten]

/-- Full characterization of the per-record loop: outputs are the
successful records in order; `processedRecords`, `errors` and
`encryptedFields` advance by the success count, failure count and the
sum of encryption increments. -/
theorem procF_foldl_char (step : ImportStep) :
    ∀ (records : List Jobj) (out : List Jobj) (st : ImportStats),
      records.foldl (procF step) (out, st) =
        (out ++ records.filterMap (stepOkRec step),
         { st with
           processedRecords :=
             st.processedRecords + (records.filter (stepIsOk step)).length,
           errors :=
             st.errors +
               (records.filter (fun r => !(stepIsOk step r))).length,
           encryptedFields :=
             st.encryptedFields + (records.map (stepEnc step)).sum }) := by
  intro records
  induction records with
  | nil => intro out st; simp
  | cons r rs ih =>
      intro out st
      obtain ⟨t, p, enc, er, w⟩ := st
      rw [List.foldl_cons]
      cases hr : step r with
      | ok v =>
          obtain ⟨rec, e⟩ := v
          have hok : stepIsOk step r = true := by simp [stepIsOk, hr]
          have hrec : stepOkRec step r = some rec := by simp [stepOkRec, hr]
          have henc : stepEnc step r = e := by simp [stepEnc, hr]
          have hstep : procF step (out, ⟨t, p, enc, er, w⟩) r =
              (out ++ [rec], ⟨t, p + 1, enc + e, er, w⟩) := by
            simp [procF, hr]
          rw [hstep, ih]
          simp only [List.filterMap_cons, hrec, List.filter_cons, hok,
            Bool.not_true, List.map_cons, henc, List.sum_cons, if_true,
            Bool.false_eq_true, if_false, List.length_cons]
          refine Prod.ext ?_ ?_
          · simp [List.append_assoc]
          · simp [ImportStats.mk.injEq]; omega
      | error msg =>
          have hok : stepIsOk step r = false := by simp [stepIsOk, hr]
          have hrec : stepOkRec step r = none := by simp [stepOkRec, hr]
          have henc : stepEnc step r = 0 := by simp [stepEnc, hr]
          have hstep : procF step (out, ⟨t, p, enc, er, w⟩) r =
              (out, ⟨t, p, enc, er + 1, w⟩) := by
            simp [procF, hr]
          rw [hstep, ih]
          simp only [List.filterMap_cons, hrec, List.filter_cons, hok,
            Bool.not_false, List.map_cons, henc, List.sum_cons, if_true,
            Bool.false_eq_true, if_false, List.length_cons]
          refine Prod.ext ?_ ?_
          · simp
          · simp [ImportStats.mk.injEq]; omega

/-- The upload loop over an arbitrary batch list. -/
theorem uploadFold_char (send : List Jobj → Except String Unit) :
    ∀ (batches : List (List Jobj)) (u : Nat) (st : ImportStats),
      batches.foldl (upF send) (u, st) =
      (u + ((batches.filter (sendOk send)).map List.length).sum,
       { st with
         errors :=
           st.errors +
             ((batches.filter (fun b => !(sendOk send b))).map
               List.length).sum }) := by
  intro batches
  induction batches with
  | nil => intro u st; simp
  | cons b bs ih =>
      intro u st
      obtain ⟨t, p, enc, er, w⟩ := st
      rw [List.foldl_cons]
      cases hb : send b with
      | ok v =>
          have hok : sendOk send b = true := by simp [sendOk, hb]
          have hstep : upF send (u, ⟨t, p, enc, er, w⟩) b =
              (u + b.length, (⟨t, p, enc, er, w⟩ : ImportStats)) := by
            simp [upF, hb]
          rw [hstep, ih]
          simp only [List.filter_cons, hok, Bool.not_true, if_true,
            Bool.false_eq_true, if_false, List.map_cons, List.sum_cons]
          refine Prod.ext ?_ ?_
          · simp
            omega
          · rfl
      | error msg =>
          have hok : sendOk send b = false := by simp [sendOk, hb]
          have hstep : upF send (u, ⟨t, p, enc, er, w⟩) b =
              (u, (⟨t, p, enc, er + b.length, w⟩ : ImportStats)) := by
            simp [upF, hb]
          rw [hstep, ih]
          simp only [List.filter_cons, hok, Bool.not_false, if_true,
            Bool.false_eq_true, if_false, List.map_cons, List.sum_cons]
          refine Prod.ext ?_ ?_
          · rfl
          · simp [ImportStats.mk.injEq]; omega

/-- The `uploadToDatabaseWith` loop characterized batch-wise. -/
theorem uploadToDatabaseWith_char (send : List Jobj → Except String Unit)
    (recs : List Jobj) (st : ImportStats) :
    uploadToDatabaseWith send recs st =
      ((((chunks 50 recs).filter (sendOk send)).map List.length).sum,
       { st with
         errors :=
           st.errors +
             (((chunks 50 recs).filter (fun b => !(sendOk send b))).map
               List.length).sum }) := by
  unfold uploadToDatabaseWith
  rw [uploadFold_char]
  simp

/-- Success count and failure count partition the records. -/
theorem filter_length_partition {α : Type} (p : α → Bool) (l : List α) :
    (l.filter p).length + (l.filter (fun x => !(p x))).length = l.length := by
  induction l with
  | nil => rfl
  | cons x t ih =>
      by_cases h : p x
      · simp [List.filter_cons, h]
        omega
      · simp [List.filter_cons, h]
        omega

/-- Each success contributes exactly one output record. -/
theorem filterMap_stepOkRec_length (step : ImportStep) (l : List Jobj) :
    (l.filterMap (stepOkRec step)).length =
      (l.filter (stepIsOk step)).length := by
  induction l with
  | nil => rfl
  | cons r t ih =>
      cases hr : step r with
      | ok v =>
          obtain ⟨rec, e⟩ := v
          simp [List.filterMap_cons, List.filter_cons, stepOkRec, stepIsOk,
            hr, ih]
      | error msg =>
          simp [List.filterMap_cons, List.filter_cons, stepOkRec, stepIsOk,
            hr, ih]

theorem jkeys_jset_mem (o : Jobj) (k : String) (v : JVal) (k1 : String)
    (h : k1 ∈ jkeys (jset o k v)) : k1 = k ∨ k1 ∈ jkeys o := by
  induction o with
  | nil =>
      simp [jkeys, jset] at h
      exact Or.inl h
  | cons kv t ih =>
      obtain ⟨k0, v0⟩ := kv
      by_cases h0 : k0 = k
      · subst h0
        simp [jkeys, jset] at h ⊢
        tauto
      · simp [jkeys, jset, h0] at h
        rcases h with h | h
        · exact Or.inr (by simp [jkeys, h])
        · rcases ih (by simpa [jkeys] using h) with h1 | h1
          · exact Or.inl h1
          · exact Or.inr (by simp [jkeys] at h1 ⊢; tauto)

/-! ## Claim theorems -/

/-- Claim C3: for every passphrase `p1` and plaintext `m`, decrypting
with the key derived from `p1` a blob encrypted with the key derived from
`p1` returns `m`; and for every `p2 ≠ p1`, decrypting that blob with the
key derived from `p2` fails with a `DecryptionError` value (a caught
wrong-password condition, not a crash). -/
theorem keyManager_roundtrip_wrong_password (p1 p2 m : String)
    (iv : List Nat) (h : p1 ≠ p2) :
    encryptKey (initializeKM p1) iv m =
      .ok ⟨iv, aesGcmEncrypt (deriveKey p1) iv m⟩ ∧
    decryptKey (initializeKM p1) ⟨iv, aesGcmEncrypt (deriveKey p1) iv m⟩ =
      .ok m ∧
    decryptKey (initializeKM p2) ⟨iv, aesGcmEncrypt (deriveKey p1) iv m⟩ =
      .error KMError.decryptionError := by
  refine ⟨rfl, ?_, ?_⟩
  · simp [decryptKey, initializeKM, aesGcmDecrypt, aesGcmEncrypt, deriveKey]
  · simp [decryptKey, initializeKM, aesGcmDecrypt, aesGcmEncrypt, deriveKey,
      AESKey.mk.injEq, h]

theorem keyManager_roundtrip_wrong_password_witness :
    decryptKey (initializeKM "alpha")
      ⟨[0, 1, 2, 3, 4, 5, 6, 7, 8, 9, 10, 11],
        aesGcmEncrypt (deriveKey "alpha") [0, 1, 2, 3, 4, 5, 6, 7, 8, 9, 10, 11]
          "service-key"⟩ = .ok "service-key" ∧
    decryptKey (initializeKM "beta")
      ⟨[0, 1, 2, 3, 4, 5, 6, 7, 8, 9, 10, 11],
        aesGcmEncrypt (deriveKey "alpha") [0, 1, 2, 3, 4, 5, 6, 7, 8, 9, 10, 11]
          "service-key"⟩ = .error KMError.decryptionError :=
  ⟨(keyManager_roundtrip_wrong_password "alpha" "beta" "service-key"
      [0, 1, 2, 3, 4, 5, 6, 7, 8, 9, 10, 11] (by decide)).2.1,
   (keyManager_roundtrip_wrong_password "alpha" "beta" "service-key"
      [0, 1, 2, 3, 4, 5, 6, 7, 8, 9, 10, 11] (by decide)).2.2⟩

/-- Claim C4 (counterexample): on a completed run the returned result
object carries the keys `success`, `totalRecords`, `uploadedRecords`,
`errors` — three of the five statistics fields the claim names
(`processedRecords`, `encryptedFields`, `warnings`) are absent. -/
theorem importData_result_keys_counterexample :
    jkeys (importData [] "import_1" "2025-10-01T00:00:00.000Z") =
      ["success", "totalRecords", "uploadedRecords", "errors"] ∧
    "processedRecords" ∉
      jkeys (importData [] "import_1" "2025-10-01T00:00:00.000Z") ∧
    "encryptedFields" ∉
      jkeys (importData [] "import_1" "2025-10-01T00:00:00.000Z") ∧
    "warnings" ∉
      jkeys (importData [] "import_1" "2025-10-01T00:00:00.000Z") := by
  refine ⟨rfl, ?_, ?_, ?_⟩ <;> decide

/-- Claim C4 (amended): for every record list, a completed import run
returns a result object with exactly the keys `success`, `totalRecords`,
`uploadedRecords` and `errors`; the five statistics fields are kept in
the internal `importStats` object, but `processedRecords`,
`encryptedFields` and `warnings` are not part of the returned result. -/
theorem importData_result_keys (records : List Jobj)
    (batchId now : String) :
    jkeys (importData records batchId now) =
      ["success", "totalRecords", "uploadedRecords", "errors"] := rfl

/-- Claim C5 (counterexample): the empty string fails to parse as a date
(the host parser rejects it, and it matches no rewrite pattern), yet
`parseDate` returns `null` without incrementing the warnings counter —
the guard `!dateString || dateString.trim() === ''` returns early. -/
theorem parseDate_blank_counterexample :
    jsDateParse "" = none ∧ ddmmmyyPattern "" = false ∧
    parseDate "" 0 = (none, 0) ∧ parseDate "" 0 ≠ (none, 0 + 1) := by
  decide

/-- Claim C5 (amended): `parseDate` maps the 7-character `DDMMMYY`
pattern via the fixed month table to ISO (`01OCT25 → 2025-10-01`); every
non-blank string that fails to parse yields `null` with the warnings
counter incremented by exactly 1 and without aborting the row, and every
non-blank string otherwise parses with the counter unchanged; blank or
whitespace-only input yields `null` without incrementing the counter. -/
theorem parseDate_spec (s : String) (w : Nat) :
    parseDate "01OCT25" w = (some "2025-10-01", w) ∧
    parseDate "not-a-date" w = (none, w + 1) ∧
    (jsTrim s = "" → parseDate s w = (none, w)) ∧
    (jsTrim s ≠ "" →
      parseDate s w = (none, w + 1) ∨
        ∃ iso, parseDate s w = (some iso, w)) ∧
    (ddmmmyyPattern (jsTrim s) = true →
      jsDateParse (rewriteDDMMMYY (jsTrim s)) =
        some (rewriteDDMMMYY (jsTrim s)) →
      parseDate s w = (some (rewriteDDMMMYY (jsTrim s)), w)) := by
  refine ⟨rfl, rfl, ?_, ?_, ?_⟩
  · intro h
    simp [parseDate, h]
  · intro h
    unfold parseDate
    rw [if_neg h]
    cases hj : jsDateParse
        (if ddmmmyyPattern (jsTrim s) = true then rewriteDDMMMYY (jsTrim s)
         else jsTrim s) with
    | some iso =>
        right
        exact ⟨iso, by simp [hj]⟩
    | none =>
        left
        simp [hj]
  · intro hp hv
    have hne : jsTrim s ≠ "" := by
      intro h0
      rw [h0] at hp
      exact absurd hp (by decide)
    unfold parseDate
    rw [if_neg hne]
    simp only [hp, if_true, hv]

theorem parseDate_spec_witness :
    parseDate "12/25/not-a-date" 7 = (none, 7 + 1) ∨
      ∃ iso, parseDate "12/25/not-a-date" 7 = (some iso, 7) :=
  (parseDate_spec "12/25/not-a-date" 7).2.2.2.1 (by decide)

/-- Claim C7: department classification is a case-insensitive substring
match over the ordered keyword list NYA, FORBES, QC, MICRO (first match
wins, default `general`, so the result is always one of the five
labels); `NYA Building 4 ↦ NYA`, `Annex ↦ general`; the demo script's
`identifyDepartment` agrees with the importer's `extractDepartment`. -/
theorem department_classification (v : JVal) (l : String) (h : l ≠ "") :
    extractDepartment (JVal.str "NYA Building 4") = "NYA" ∧
    extractDepartment (JVal.str "Annex") = "general" ∧
    extractDepartment v ∈ ["NYA", "FORBES", "QC", "MICROBIOLOGY", "general"] ∧
    identifyDepartment v = extractDepartment v ∧
    extractDepartment (JVal.str l) =
      (if jsIncludes (strToUpper l) "NYA" then "NYA"
       else if jsIncludes (strToUpper l) "FORBES" then "FORBES"
       else if jsIncludes (strToUpper l) "QC" then "QC"
       else if jsIncludes (strToUpper l) "MICRO" then "MICROBIOLOGY"
       else "general") := by
  refine ⟨by decide, by decide, ?_, ?_, ?_⟩
  · cases v <;> simp [extractDepartment, jtruthy]
    split_ifs <;> simp_all
  · cases v <;> rfl
  · simp [extractDepartment, jtruthy, h]

theorem department_classification_witness :
    extractDepartment (JVal.str "Lab QC 3") =
      (if jsIncludes (strToUpper "Lab QC 3") "NYA" then "NYA"
       else if jsIncludes (strToUpper "Lab QC 3") "FORBES" then "FORBES"
       else if jsIncludes (strToUpper "Lab QC 3") "QC" then "QC"
       else if jsIncludes (strToUpper "Lab QC 3") "MICRO" then "MICROBIOLOGY"
       else "general") :=
  (department_classification (JVal.str "Lab QC 3") "Lab QC 3"
    (by decide)).2.2.2.2

/-- Claim C2 (counterexample): an imported row whose serialization
contains both `@` and `confidential` is classified `internal`, not
`confidential` — the `@`/`email` test runs before the
`confidential`/`sensitive` test in `classifyRecord`. -/
theorem classifyRecord_counterexample :
    (jsIncludes
      (strToLower (jsonStringify
        (mapCSVRow
          ⟨some "GR-1", some "Audit of confidential files", some "a@b.c",
            some "NYA", none, none, none, none, none⟩ 0).1))
      "@") = true ∧
    (jsIncludes
      (strToLower (jsonStringify
        (mapCSVRow
          ⟨some "GR-1", some "Audit of confidential files", some "a@b.c",
            some "NYA", none, none, none, none, none⟩ 0).1))
      "confidential") = true ∧
    classifyRecord
      (mapCSVRow
        ⟨some "GR-1", some "Audit of confidential files", some "a@b.c",
          some "NYA", none, none, none, none, none⟩ 0).1 = "internal" ∧
    classifyRecord
      (mapCSVRow
        ⟨some "GR-1", some "Audit of confidential files", some "a@b.c",
          some "NYA", none, none, none, none, none⟩ 0).1 ≠ "confidential" := by
  refine ⟨by decide, by decide, by decide, by decide⟩

/-- Claim C2 (amended): the classifier returns `internal` whenever the
lower-cased serialized record contains `@` or `email` (this test has
priority); when it contains neither but contains `confidential` or
`sensitive` it returns `confidential`; otherwise it returns `internal`
by default — in particular a record containing both `@` and
`confidential` is classified `internal`. -/
theorem classifyRecord_priority (record : Jobj) :
    ((jsIncludes (strToLower (jsonStringify record)) "@" ||
      jsIncludes (strToLower (jsonStringify record)) "email") = true →
      classifyRecord record = "internal") ∧
    ((jsIncludes (strToLower (jsonStringify record)) "@" ||
      jsIncludes (strToLower (jsonStringify record)) "email") = false →
     (jsIncludes (strToLower (jsonStringify record)) "confidential" ||
      jsIncludes (strToLower (jsonStringify record)) "sensitive") = true →
      classifyRecord record = "confidential") ∧
    ((jsIncludes (strToLower (jsonStringify record)) "@" ||
      jsIncludes (strToLower (jsonStringify record)) "email") = false →
     (jsIncludes (strToLower (jsonStringify record)) "confidential" ||
      jsIncludes (strToLower (jsonStringify record)) "sensitive") = false →
      classifyRecord record = "internal") := by
  refine ⟨?_, ?_, ?_⟩
  · intro h1
    simp [classifyRecord, h1]
  · intro h1 h2
    simp only [Bool.or_eq_false_iff] at h1
    simp [classifyRecord, h1.1, h1.2, h2]
  · intro h1 h2
    simp only [Bool.or_eq_false_iff] at h1 h2
    simp [classifyRecord, h1.1, h1.2, h2.1, h2.2]

theorem classifyRecord_priority_witness :
    classifyRecord [("contact_organizer", JVal.str "x@y.z")] = "internal" :=
  (classifyRecord_priority [("contact_organizer", JVal.str "x@y.z")]).1
    (by decide)

/-- Claim C9: CSV export applies RFC-4180-style quoting — internal
double quotes are doubled, and a field is wrapped in quotes exactly when
it contains a comma, quote, or newline; for the record list
`[(a ↦ "x,y"), (b ↦ "z\"w")]` the exported text is the header `a,b`
followed by the data line `"x,y","z""w"`. -/
theorem csv_rfc4180 (s : String) :
    ((jsIncludes s "," || jsIncludes s "\n" || jsIncludes s "\"") = false →
      csvCellVal (some (JVal.str s)) = s) ∧
    ((jsIncludes s "," || jsIncludes s "\n" || jsIncludes s "\"") = true →
      csvCellVal (some (JVal.str s)) = "\"" ++ doubleQuotesJS s ++ "\"") ∧
    exportToCSV [[("a", JVal.str "x,y"), ("b", JVal.str "z\"w")]] =
      some "a,b\n\"x,y\",\"z\"\"w\"\n" := by
  have hcell : csvCellVal (some (JVal.str s)) =
      (if jsIncludes (doubleQuotesJS s) "," ||
          jsIncludes (doubleQuotesJS s) "\n" ||
          jsIncludes (doubleQuotesJS s) "\"" then
        "\"" ++ doubleQuotesJS s ++ "\""
      else doubleQuotesJS s) := by
    by_cases hs : s = ""
    · subst hs
      rfl
    · simp [csvCellVal, jtruthy, hs]
  have htrans : ∀ c : Char,
      jsIncludes (doubleQuotesJS s) ⟨[c]⟩ = jsIncludes s ⟨[c]⟩ := by
    intro c
    simp [jsIncludes, singleton_infix_iff, mem_doubleQuotesJS]
  have hc : jsIncludes (doubleQuotesJS s) "," = jsIncludes s "," :=
    htrans ','
  have hn : jsIncludes (doubleQuotesJS s) "\n" = jsIncludes s "\n" :=
    htrans '\n'
  have hq : jsIncludes (doubleQuotesJS s) "\"" = jsIncludes s "\"" :=
    htrans '"'
  refine ⟨?_, ?_, by decide⟩
  · intro h
    simp only [Bool.or_eq_false_iff] at h
    rw [hcell, hc, hn, hq, h.1.1, h.1.2, h.2]
    simp only [Bool.or_self, if_neg Bool.false_ne_true]
    apply doubleQuotesJS_no_quote
    have := h.2
    simp [jsIncludes, singleton_infix_iff] at this
    intro hmem
    exact absurd hmem (by simpa using this)
  · intro h
    rw [hcell, hc, hn, hq, h]
    simp

theorem csv_rfc4180_witness :
    csvCellVal (some (JVal.str "plain text")) = "plain text" ∧
    csvCellVal (some (JVal.str "a,b")) =
      "\"" ++ doubleQuotesJS "a,b" ++ "\"" :=
  ⟨(csv_rfc4180 "plain text").1 (by decide),
   (csv_rfc4180 "a,b").2.1 (by decide)⟩

/-- Every key of the Excel clean record comes from a source key that
contains neither `encrypted` nor `hash` and is not `audit_log`. -/
theorem excelFold_keys (record : Jobj) :
    ∀ (ks : List String) (clean : Jobj) (k : String),
      k ∈ jkeys (ks.foldl
        (fun clean key =>
          if !(jsIncludes key "encrypted") && !(jsIncludes key "hash") &&
              key ≠ "audit_log" then
            jset clean (replaceFirstUnderscore key)
              ((jget record key).getD .undefined)
          else clean)
        clean) →
      k ∈ jkeys clean ∨
        ∃ k0, k0 ∈ ks ∧ jsIncludes k0 "encrypted" = false ∧
          jsIncludes k0 "hash" = false ∧ k0 ≠ "audit_log" ∧
          k = replaceFirstUnderscore k0 := by
  intro ks
  induction ks with
  | nil =>
      intro clean k h
      exact Or.inl h
  | cons k1 kt ih =>
      intro clean k h
      rw [List.foldl_cons] at h
      by_cases hg : (!(jsIncludes k1 "encrypted") && !(jsIncludes k1 "hash") &&
          k1 ≠ "audit_log") = true
      · rw [if_pos hg] at h
        simp only [Bool.and_eq_true, Bool.not_eq_true', decide_eq_true_eq]
          at hg
        rcases ih _ k h with h1 | h1
        · rcases jkeys_jset_mem _ _ _ _ h1 with h2 | h2
          · exact Or.inr ⟨k1, by simp, hg.1.1, hg.1.2, hg.2, h2⟩
          · exact Or.inl h2
        · obtain ⟨k0, hk0, h2, h3, h4, h5⟩ := h1
          exact Or.inr ⟨k0, by simp [hk0], h2, h3, h4, h5⟩
      · rw [if_neg hg] at h
        rcases ih _ k h with h1 | h1
        · exact Or.inl h1
        · obtain ⟨k0, hk0, h2, h3, h4, h5⟩ := h1
          exact Or.inr ⟨k0, by simp [hk0], h2, h3, h4, h5⟩

/-- Claim C6 (counterexample): `exportToCSV` excludes only the fixed
names `contact_organizer_encrypted`, `contact_organizer_hash`,
`data_hash`, `audit_log` — a field named `notes_hash`, whose name
contains `hash`, appears verbatim in the serialized CSV output. -/
theorem exportToCSV_fixed_list_counterexample :
    jsIncludes "notes_hash" "hash" = true ∧
    exportToCSV [[("a", JVal.str "x"), ("notes_hash", JVal.str "h")]] =
      some "a,notes_hash\nx,h\n" ∧
    jsIncludes "a,notes_hash\nx,h\n" "notes_hash" = true ∧
    "notes_hash" ∈ csvColumns [("a", JVal.str "x"),
      ("notes_hash", JVal.str "h")] := by
  refine ⟨by decide, by decide, by decide, by decide⟩

/-- Claim C6 (amended): the Excel export excludes every field whose name
contains `encrypted` or `hash` or equals `audit_log` (each emitted
column name is the first-underscore rename of a surviving source key);
the CSV export instead excludes exactly the four fixed names
`contact_organizer_encrypted`, `contact_organizer_hash`, `data_hash` and
`audit_log`, so those four never appear as CSV columns. -/
theorem export_sensitive_exclusion (record d0 : Jobj) (k : String) :
    (k ∈ jkeys (excelCleanRecord record) →
      ∃ k0, k0 ∈ jkeys record ∧ jsIncludes k0 "encrypted" = false ∧
        jsIncludes k0 "hash" = false ∧ k0 ≠ "audit_log" ∧
        k = replaceFirstUnderscore k0) ∧
    (k ∈ excludeFields → k ∉ csvColumns d0) ∧
    csvColumns d0 =
      (jkeys d0).filter (fun key => !(excludeFields.contains key)) := by
  refine ⟨?_, ?_, rfl⟩
  · intro h
    rcases excelFold_keys record (jkeys record) [] k h with h1 | h1
    · simp [jkeys] at h1
    · exact h1
  · intro hk hcol
    simp only [csvColumns, List.mem_filter, Bool.not_eq_true'] at hcol
    simp only [excludeFields, List.mem_cons, List.not_mem_nil, or_false]
      at hk
    rcases hk with rfl | rfl | rfl | rfl <;> exact absurd hcol.2 (by decide)

theorem export_sensitive_exclusion_witness :
    (∃ k0, k0 ∈ jkeys [("short_description", JVal.str "x"),
        ("data_hash", JVal.str "h")] ∧
      jsIncludes k0 "encrypted" = false ∧ jsIncludes k0 "hash" = false ∧
      k0 ≠ "audit_log" ∧ "short description" = replaceFirstUnderscore k0) ∧
    "data_hash" ∉ csvColumns [("short_description", JVal.str "x"),
      ("data_hash", JVal.str "h")] :=
  ⟨(export_sensitive_exclusion
      [("short_description", JVal.str "x"), ("data_hash", JVal.str "h")]
      [("short_description", JVal.str "x"), ("data_hash", JVal.str "h")]
      "short description").1 (by decide),
   (export_sensitive_exclusion
      [("short_description", JVal.str "x"), ("data_hash", JVal.str "h")]
      [("short_description", JVal.str "x"), ("data_hash", JVal.str "h")]
      "data_hash").2.1 (by decide)⟩

/-- Claim C1 (counterexample): the simplified importer transmits the
row's `contact_organizer` value verbatim — for a row whose contact value
contains `@`, the record handed to the store carries that value under
the plainly named field `contact_organizer`, and no
`_encrypted`/`_hash` fields exist. -/
theorem simpleImport_plaintext_counterexample :
    simpleImportMapRow
        ⟨some "42", some "Line stoppage", some "jane@corp.com",
          some "NYA Building 4", some "01OCT25", none, some "fix",
          some "Yes", some "Resolved"⟩ ∈
      simpleImportRecords
        [⟨some "42", some "Line stoppage", some "jane@corp.com",
          some "NYA Building 4", some "01OCT25", none, some "fix",
          some "Yes", some "Resolved"⟩] ∧
    jget (simpleImportMapRow
        ⟨some "42", some "Line stoppage", some "jane@corp.com",
          some "NYA Building 4", some "01OCT25", none, some "fix",
          some "Yes", some "Resolved"⟩) "contact_organizer" =
      some (JVal.str "jane@corp.com") ∧
    jsIncludes "jane@corp.com" "@" = true ∧
    jget (simpleImportMapRow
        ⟨some "42", some "Line stoppage", some "jane@corp.com",
          some "NYA Building 4", some "01OCT25", none, some "fix",
          some "Yes", some "Resolved"⟩) "contact_organizer_encrypted" =
      none ∧
    jget (simpleImportMapRow
        ⟨some "42", some "Line stoppage", some "jane@corp.com",
          some "NYA Building 4", some "01OCT25", none, some "fix",
          some "Yes", some "Resolved"⟩) "contact_organizer_hash" = none := by
  refine ⟨by decide, by decide, by decide, by decide, by decide⟩

/-- A record emitted by `encryptSensitiveData` never keeps an
`@`-containing value under the plain `contact_organizer` key. -/
theorem encryptSensitiveData_contact (record : Jobj) (s : String)
    (h : jget (encryptSensitiveData record).1 "contact_organizer" =
      some (JVal.str s)) : jsIncludes s "@" = false := by
  unfold encryptSensitiveData at h
  split at h
  · next v hv hcond =>
      split at h
      · next hcnd =>
          simp [jget_jdel_self] at h
      · next hcnd =>
          have h2 : jget record "contact_organizer" = some (JVal.str s) := h
          rw [hcond] at h2
          injection h2 with h3
          injection h3 with h4
          subst h4
          simp only [Bool.and_eq_true, decide_eq_true_eq, not_and] at hcnd
          by_cases hhv : hv = ""
          · subst hhv
            decide
          · have h5 := hcnd hhv
            simpa using h5
  · next x1 hno =>
      exact (hno s (show jget record "contact_organizer" =
        some (JVal.str s) from h)).elim

/-- The secure importer's transmitted record never keeps an
`@`-containing value under the plain `contact_organizer` key: the
metadata fields added after encryption do not touch it. -/
theorem secureRecordOf_contact (batchId now : String) (record : Jobj)
    (s : String)
    (h : jget (secureRecordOf batchId now record) "contact_organizer" =
      some (JVal.str s)) : jsIncludes s "@" = false := by
  simp only [secureRecordOf] at h
  rw [jget_jset_ne _ _ _ _ (by decide), jget_jset_ne _ _ _ _ (by decide),
      jget_jset_ne _ _ _ _ (by decide), jget_jset_ne _ _ _ _ (by decide),
      jget_jset_ne _ _ _ _ (by decide)] at h
  exact encryptSensitiveData_contact record s h

/-- The portal's `dbData` never keeps an `@`-containing value under the
plain `contact_organizer` key (though `requester_email` can slip
through when `contact_organizer` is present without `@`). -/
theorem submitFormPrepare_contact (formData : Jobj)
    (userEmail userDept templateName createdAt s : String)
    (h : jget (submitFormPrepare formData userEmail userDept templateName
        createdAt) "contact_organizer" = some (JVal.str s)) :
    jsIncludes s "@" = false := by
  simp only [submitFormPrepare] at h
  split at h
  · next hout =>
      split at h
      · next s0 heq =>
          split at h
          · next hat =>
              rw [jget_jdel_ne _ _ _ (by decide), jget_jdel_self] at h
              exact absurd h (by simp)
          · next hat =>
              by_cases hco : jtruthyOpt (jget
                  (jset (jset (jset (jset (jset formData "created_by"
                    (JVal.str userEmail)) "department" (JVal.str userDept))
                    "security_classification" (JVal.str "internal"))
                    "source_file"
                    (JVal.str (templateName ++ " - User Submission")))
                    "created_at" (JVal.str createdAt))
                  "contact_organizer") = true
              · rw [if_pos hco, h] at heq
                simp only [Option.getD_some] at heq
                injection heq with h4
                subst h4
                simpa using hat
              · rw [h] at hco
                simp only [jtruthyOpt, jtruthy] at hco
                simp only [decide_eq_true_eq, Decidable.not_not] at hco
                subst hco
                decide
      · next hno =>
          by_cases hco : jtruthyOpt (jget
              (jset (jset (jset (jset (jset formData "created_by"
                (JVal.str userEmail)) "department" (JVal.str userDept))
                "security_classification" (JVal.str "internal"))
                "source_file"
                (JVal.str (templateName ++ " - User Submission")))
                "created_at" (JVal.str createdAt))
              "contact_organizer") = true
          · exact (hno s (by rw [if_pos hco, h]; rfl)).elim
          · rw [h] at hco
            simp only [jtruthyOpt, jtruthy] at hco
            simp only [decide_eq_true_eq, Decidable.not_not] at hco
            subst hco
            decide
  · next hout =>
      rw [Bool.or_eq_true, not_or] at hout
      rw [h] at hout
      have h1 := hout.1
      simp only [jtruthyOpt, jtruthy] at h1
      simp only [decide_eq_true_eq, Decidable.not_not] at h1
      subst h1
      decide

/-- Claim C1 (amended): in the secure bulk importer, a contact value
containing `@` is removed before transmission and replaced by values
under the `_encrypted`/`_hash` field names, and a transmitted record
never carries an `@` value under the plain `contact_organizer` name; the
user portal likewise never transmits an `@` value under the plain
`contact_organizer` name (though it may retain `requester_email`); the
simplified importer, however, transmits the row's contact value
verbatim under the plain `contact_organizer` name with no encryption
step. -/
theorem contact_plaintext_paths (record formData : Jobj) (row : CsvRow)
    (batchId now userEmail userDept templateName createdAt s : String) :
    (jget (secureRecordOf batchId now record) "contact_organizer" =
        some (JVal.str s) → jsIncludes s "@" = false) ∧
    (jget record "contact_organizer" = some (JVal.str s) → s ≠ "" →
      jsIncludes s "@" = true →
      jget (encryptSensitiveData record).1 "contact_organizer_encrypted" =
        some (JVal.str (simpleEncrypt s)) ∧
      jget (encryptSensitiveData record).1 "contact_organizer_hash" =
        some (JVal.str (simpleHash s)) ∧
      jget (encryptSensitiveData record).1 "contact_organizer" = none) ∧
    (jget (submitFormPrepare formData userEmail userDept templateName
        createdAt) "contact_organizer" = some (JVal.str s) →
      jsIncludes s "@" = false) ∧
    jget (simpleImportMapRow row) "contact_organizer" =
      some (jvalOfCell row.contact) := by
  refine ⟨secureRecordOf_contact batchId now record s, ?_,
    submitFormPrepare_contact formData userEmail userDept templateName
      createdAt s, rfl⟩
  intro hc hne hat
  have hred : (encryptSensitiveData record).1 =
      jdel
        (jset
          (jset record "contact_organizer_encrypted"
            (JVal.str (simpleEncrypt s)))
          "contact_organizer_hash" (JVal.str (simpleHash s)))
        "contact_organizer" := by
    simp [encryptSensitiveData, hc, hne, hat]
  refine ⟨?_, ?_, ?_⟩
  · rw [hred, jget_jdel_ne _ _ _ (by decide),
      jget_jset_ne _ _ _ _ (by decide), jget_jset_self]
  · rw [hred, jget_jdel_ne _ _ _ (by decide), jget_jset_self]
  · rw [hred, jget_jdel_self]

theorem contact_plaintext_paths_witness :
    jsIncludes "bob" "@" = false ∧
    (jget (encryptSensitiveData [("contact_organizer", JVal.str "a@b.c")]).1
        "contact_organizer_encrypted" =
      some (JVal.str (simpleEncrypt "a@b.c")) ∧
     jget (encryptSensitiveData [("contact_organizer", JVal.str "a@b.c")]).1
        "contact_organizer_hash" = some (JVal.str (simpleHash "a@b.c")) ∧
     jget (encryptSensitiveData [("contact_organizer", JVal.str "a@b.c")]).1
        "contact_organizer" = none) :=
  ⟨(contact_plaintext_paths
      [("contact_organizer", JVal.str "bob"), ("location", JVal.str "x")]
      [] ⟨none, none, none, none, none, none, none, none, none⟩
      "b0" "t0" "u@x.y" "general" "tpl" "c0" "bob").1 (by decide),
   (contact_plaintext_paths [("contact_organizer", JVal.str "a@b.c")]
      [] ⟨none, none, none, none, none, none, none, none, none⟩
      "b0" "t0" "u@x.y" "general" "tpl" "c0" "a@b.c").2.1
      (by decide) (by decide) (by decide)⟩

/-- Claim C8: a failure while processing or uploading increments the
error counter and the loops continue — the processing loop emits exactly
the successful rows (in order) and adds one error per failed row, the
upload loop counts each failed batch's rows into `errors` and keeps
uploading later batches, and a successfully processed row's record stays
in the output no matter which other rows fail (no abort, no rollback of
earlier batches). -/
theorem import_continues_on_failure (step : ImportStep)
    (send : List Jobj → Except String Unit)
    (records processed pre post : List Jobj) (r rec : Jobj) (e : Nat)
    (stats : ImportStats) :
    (processRecordsWith step records stats).1 =
      records.filterMap (stepOkRec step) ∧
    (processRecordsWith step records stats).2.errors =
      stats.errors + (records.filter (fun x => !(stepIsOk step x))).length ∧
    (processRecordsWith step records stats).2.processedRecords =
      stats.processedRecords + (records.filter (stepIsOk step)).length ∧
    (records = pre ++ r :: post → step r = .ok (rec, e) →
      rec ∈ (processRecordsWith step records stats).1) ∧
    (uploadToDatabaseWith send processed stats).1 =
      (((chunks 50 processed).filter (sendOk send)).map List.length).sum ∧
    (uploadToDatabaseWith send processed stats).2.errors =
      stats.errors +
        (((chunks 50 processed).filter (fun b => !(sendOk send b))).map
          List.length).sum := by
  obtain ⟨t, p, enc, er, w⟩ := stats
  have hpr := processRecordsWith_eq_foldl step records ⟨t, p, enc, er, w⟩
  have hchar := procF_foldl_char step records [] ⟨t, p, enc, er, w⟩
  rw [hchar] at hpr
  have hup := uploadToDatabaseWith_char send processed ⟨t, p, enc, er, w⟩
  refine ⟨by rw [hpr]; simp, by rw [hpr], by rw [hpr], ?_, by rw [hup],
    by rw [hup]⟩
  intro hrecords hstep
  rw [hpr]
  simp only [List.nil_append]
  subst hrecords
  exact List.mem_filterMap.mpr ⟨r, by simp, by simp [stepOkRec, hstep]⟩

theorem import_continues_on_failure_witness :
    secureRecordOf "b0" "t0" [("contact_organizer", JVal.str "a@b.c")] ∈
      (processRecordsWith (realStep "b0" "t0")
        [[("contact_organizer", JVal.str "a@b.c")]] initialStats).1 :=
  (import_continues_on_failure (realStep "b0" "t0") uploadSendSim
      [[("contact_organizer", JVal.str "a@b.c")]] [] [] []
      [("contact_organizer", JVal.str "a@b.c")]
      (secureRecordOf "b0" "t0" [("contact_organizer", JVal.str "a@b.c")])
      (if (encryptSensitiveData
        [("contact_organizer", JVal.str "a@b.c")]).2 then 1 else 0)
      initialStats).2.2.2.1 rfl rfl

/-- Claim C10: after the processing phase, `processedRecords` plus
`errors` equals the number of input rows, and the emitted record array
has exactly `processedRecords` elements — every input row is either
emitted as one output record or counted as one error, never silently
dropped or duplicated. -/
theorem processRecords_row_accounting (step : ImportStep)
    (records : List Jobj) (stats : ImportStats)
    (hp : stats.processedRecords = 0) (he : stats.errors = 0) :
    (processRecordsWith step records stats).2.processedRecords +
        (processRecordsWith step records stats).2.errors =
      records.length ∧
    (processRecordsWith step records stats).1.length =
      (processRecordsWith step records stats).2.processedRecords := by
  obtain ⟨t, p, enc, er, w⟩ := stats
  simp only at hp he
  subst hp
  subst he
  have hpr := processRecordsWith_eq_foldl step records ⟨t, 0, enc, 0, w⟩
  have hchar := procF_foldl_char step records [] ⟨t, 0, enc, 0, w⟩
  rw [hchar] at hpr
  rw [hpr]
  constructor
  · simp only [Nat.zero_add]
    exact filter_length_partition (stepIsOk step) records
  · simp only [List.nil_append, Nat.zero_add]
    exact filterMap_stepOkRec_length step records

theorem processRecords_row_accounting_witness :
    (processRecordsWith (realStep "b1" "t1")
        [[("short_description", JVal.str "walk")]]
        initialStats).2.processedRecords +
      (processRecordsWith (realStep "b1" "t1")
        [[("short_description", JVal.str "walk")]]
        initialStats).2.errors = 1 ∧
    (processRecordsWith (realStep "b1" "t1")
        [[("short_description", JVal.str "walk")]] initialStats).1.length =
      (processRecordsWith (realStep "b1" "t1")
        [[("short_description", JVal.str "walk")]]
        initialStats).2.processedRecords :=
  processRecords_row_accounting (realStep "b1" "t1")
    [[("short_description", JVal.str "walk")]] initialStats rfl rfl
